import Mathlib

/-!
Verification of the bezier-splines repository: a shallow embedding of its
de Casteljau evaluators, curve samplers and control-point topology
operations, with theorems checking the claims of the specification.

Coordinates are modelled as rationals; the Python code performs the same
field operations on floats.  A Python exception (index error on an empty
list, integer division by zero) is modelled by an `Option` result of
`none`; a successful run returns `some`.
-/

/-- A 2-d point, as in the numpy arrays `np.array([x, y])` of the source. -/
structure Point where
  x : ℚ
  y : ℚ
deriving DecidableEq, Repr

instance : Inhabited Point := ⟨⟨0, 0⟩⟩

/-- The interpolation `(1 - t) * a + t * b` applied componentwise, the
single arithmetic step every de Casteljau routine in the repository uses. -/
def lerp (t : ℚ) (a b : Point) : Point :=
  ⟨(1 - t) * a.x + t * b.x, (1 - t) * a.y + t * b.y⟩

/-- One level of `de_casteljau_general` (nb.py lines 39-52, tc.py lines 9-14):
`for i in range(len(points) - 1): new_point = (1 - t) * points[i] + t * points[i + 1]`. -/
def deCasteljauStep (t : ℚ) : List Point → List Point
  | [] => []
  | [_] => []
  | a :: b :: rest => lerp t a b :: deCasteljauStep t (b :: rest)

/-- Embeds `de_casteljau_general(control_points, t)` of nb.py / tc.py / lcexp.py:
run `len(points) - 1` levels, then return `points[0]`.  On an empty input
the final `points[0]` raises an index error, modelled by `none`. -/
def de_casteljau_general (control_points : List Point) (t : ℚ) : Option Point :=
  ((deCasteljauStep t)^[control_points.length - 1] control_points).head?

/-- Embeds `de_casteljau_cubic(p0, p1, p2, p3, t)` of tc.py (identical to
`de_casteljau` of cb.py and pb.py): three unrolled interpolation levels. -/
def de_casteljau_cubic (p0 p1 p2 p3 : Point) (t : ℚ) : Point :=
  let q0 := lerp t p0 p1
  let q1 := lerp t p1 p2
  let q2 := lerp t p2 p3
  let r0 := lerp t q0 q1
  let r1 := lerp t q1 q2
  lerp t r0 r1

/-- The sampling loop shared by the generators: evaluate at each index in
turn, propagating the first raised exception (`none`). -/
def sampleLoop (f : ℕ → Option Point) : List ℕ → Option (List Point)
  | [] => some []
  | i :: is =>
    match f i with
    | none => none
    | some p =>
      match sampleLoop f is with
      | none => none
      | some ps => some (p :: ps)

/-- Embeds `generate_bezier_curve(control_points, num_points)` of nb.py
(= `generate_higher_order_bezier` of tc.py): sample `de_casteljau_general`
at `t = i / (num_points - 1)` for `i in range(num_points)`.  With
`num_points = 1` the first loop iteration divides by zero (`none`); with
`num_points = 0` the loop body never runs and the result is empty. -/
def generate_bezier_curve (control_points : List Point) (num_points : ℕ) :
    Option (List Point) :=
  if num_points = 1 then none
  else
    sampleLoop
      (fun i => de_casteljau_general control_points
        ((i : ℚ) / ((num_points : ℚ) - 1)))
      (List.range num_points)

/-- The segment count `(len(control_points) - 1) // 3` of
`generate_piecewise_bezier` (tc.py line 45) and `get_num_segments`
(pb.py lines 56-57).  Natural subtraction makes the empty list give 0
segments, matching Python, where `(0 - 1) // 3 = -1` also runs zero loop
iterations. -/
def num_segments (control_points : List Point) : ℕ :=
  (control_points.length - 1) / 3

/-- Embeds `generate_piecewise_bezier(control_points, num_points)` of tc.py lines
44-63: for each complete segment `k` read the four points at indices
`3k .. 3k+3` (always in range, since `3 * num_segments ≤ length - 1` for a
nonempty list, so `getD` never falls back to its default) and sample the
unrolled cubic evaluator at `t = i / (num_points - 1)`.  The only possible
exception is the division by zero when `num_points = 1` and at least one
segment loop body runs. -/
def generate_piecewise_bezier (control_points : List Point) (num_points : ℕ) :
    Option (List Point) :=
  if num_points = 1 ∧ num_segments control_points ≠ 0 then none
  else
    some ((List.range (num_segments control_points)).flatMap fun k =>
      (List.range num_points).map fun i : ℕ =>
        de_casteljau_cubic
          (control_points.getD (3 * k) default)
          (control_points.getD (3 * k + 1) default)
          (control_points.getD (3 * k + 2) default)
          (control_points.getD (3 * k + 3) default)
          ((i : ℚ) / ((num_points : ℚ) - 1)))

/-- Embeds `increase_degree` of nb.py lines 140-154: read the last two points
(an index error — `none` — when fewer than two exist), form their midpoint
shifted up by `0.5`, and insert it immediately before the last point. -/
def increase_degree (control_points : List Point) : Option (List Point) :=
  if control_points.length < 2 then none
  else
    let last := control_points.getD (control_points.length - 1) default
    let second_last := control_points.getD (control_points.length - 2) default
    let new_point : Point :=
      ⟨(second_last.x + last.x) / 2, (second_last.y + last.y) / 2 + 1/2⟩
    some (control_points.dropLast ++ [new_point, last])

/-- Embeds `decrease_degree` of nb.py lines 157-168: with at most 2 points it
prints a diagnostic and returns without touching the list (the refusal is
modelled as `none`; the state of the caller is unchanged); otherwise it pops the
second-to-last point. -/
def decrease_degree (control_points : List Point) : Option (List Point) :=
  if control_points.length ≤ 2 then none
  else some (control_points.eraseIdx (control_points.length - 2))

/-- The state transition the `decrease_degree` button handler performs on
the global `control_points` list: on refusal the list is left as it was. -/
def decrease_degree_handler (control_points : List Point) : List Point :=
  (decrease_degree control_points).getD control_points

/-- Embeds `add_segment` of pb.py lines 149-172: read the last point (index error
on an empty list) and append the three points offset from it by
`(1, 0.5)`, `(2, 0.5)` and `(3, 0)`. -/
def add_segment (control_points : List Point) : Option (List Point) :=
  match control_points.getLast? with
  | none => none
  | some l =>
    some (control_points ++
      [⟨l.x + 1, l.y + 1/2⟩, ⟨l.x + 2, l.y + 1/2⟩, ⟨l.x + 3, l.y⟩])

/-! ### Helper lemmas -/

theorem lerp_zero (a b : Point) : lerp 0 a b = a := by
  simp [lerp]

theorem lerp_one (a b : Point) : lerp 1 a b = b := by
  simp [lerp]

theorem deCasteljauStep_zero (l : List Point) :
    deCasteljauStep 0 l = l.dropLast := by
  induction l with
  | nil => rfl
  | cons a l ih =>
    cases l with
    | nil => rfl
    | cons b rest =>
      simp [deCasteljauStep, lerp_zero, ih]

theorem deCasteljauStep_one (l : List Point) :
    deCasteljauStep 1 l = l.tail := by
  induction l with
  | nil => rfl
  | cons a l ih =>
    cases l with
    | nil => rfl
    | cons b rest =>
      simp [deCasteljauStep, lerp_one] at ih ⊢
      exact ih

theorem length_deCasteljauStep (t : ℚ) (l : List Point) :
    (deCasteljauStep t l).length = l.length - 1 := by
  induction l with
  | nil => rfl
  | cons a l ih =>
    cases l with
    | nil => rfl
    | cons b rest =>
      simp [deCasteljauStep] at ih ⊢
      omega

theorem length_deCasteljauStep_iterate (t : ℚ) (k : ℕ) (l : List Point) :
    ((deCasteljauStep t)^[k] l).length = l.length - k := by
  induction k generalizing l with
  | zero => simp
  | succ k ih =>
    rw [Function.iterate_succ_apply, ih, length_deCasteljauStep]
    omega

theorem head?_dropLast_iterate (k : ℕ) (l : List Point) (h : k < l.length) :
    ((fun m : List Point => m.dropLast)^[k] l).head? = l.head? := by
  induction k generalizing l with
  | zero => simp
  | succ k ih =>
    rw [Function.iterate_succ_apply]
    have hlen : k < l.dropLast.length := by
      simp [List.length_dropLast]; omega
    rw [ih _ hlen]
    match l, h with
    | a :: b :: rest, _ => simp
    | [a], h => simp at h

theorem tail_iterate_eq_drop (k : ℕ) (l : List Point) :
    (fun m : List Point => m.tail)^[k] l = l.drop k := by
  induction k generalizing l with
  | zero => simp
  | succ k ih =>
    rw [Function.iterate_succ_apply, ih, List.drop_tail]

/-- With at least one control point, the general evaluator always returns
a point. -/
theorem de_casteljau_general_isSome (cps : List Point) (t : ℚ)
    (h : 1 ≤ cps.length) :
    ∃ p, de_casteljau_general cps t = some p := by
  have hlen := length_deCasteljauStep_iterate t (cps.length - 1) cps
  rw [de_casteljau_general]
  match hm : (deCasteljauStep t)^[cps.length - 1] cps with
  | [] => rw [hm] at hlen; simp at hlen; omega
  | p :: _ => exact ⟨p, rfl⟩

theorem sampleLoop_eq_map (f : ℕ → Option Point) (g : ℕ → Point)
    (l : List ℕ) (h : ∀ x ∈ l, f x = some (g x)) :
    sampleLoop f l = some (l.map g) := by
  induction l with
  | nil => rfl
  | cons i is ih =>
    rw [List.map_cons, sampleLoop, h i (by simp),
      ih fun x hx => h x (List.mem_cons_of_mem _ hx)]

/-! ### Claim theorems -/

/-- Claim C1: for every control polygon with at least 2 control points,
`de_casteljau_general` returns the first control point at `t = 0` and the
last control point at `t = 1`. -/
theorem c1_evaluator_endpoints (cps : List Point) (h : 2 ≤ cps.length) :
    de_casteljau_general cps 0 = cps.head? ∧
    de_casteljau_general cps 1 = cps.getLast? := by
  constructor
  · rw [de_casteljau_general]
    have hf : deCasteljauStep 0 = fun m : List Point => m.dropLast :=
      funext deCasteljauStep_zero
    rw [hf]
    exact head?_dropLast_iterate _ _ (by omega)
  · rw [de_casteljau_general]
    have hf : deCasteljauStep 1 = fun m : List Point => m.tail :=
      funext deCasteljauStep_one
    rw [hf, tail_iterate_eq_drop, List.head?_drop, List.getLast?_eq_getElem?]

/-- Witness for C1 at the two-point polygon `[(0,0), (1,2)]`. -/
theorem c1_evaluator_endpoints_witness :
    de_casteljau_general [⟨0,0⟩, ⟨1,2⟩] 0 = List.head? [⟨0,0⟩, ⟨1,2⟩] ∧
    de_casteljau_general [⟨0,0⟩, ⟨1,2⟩] 1 = List.getLast? [⟨0,0⟩, ⟨1,2⟩] :=
  c1_evaluator_endpoints [⟨0,0⟩, ⟨1,2⟩] (by simp)

/-- Claim C2: on every list of exactly 4 control points and every
parameter `t` (inside or outside `[0,1]`), the unrolled cubic evaluator
agrees exactly with the general-degree evaluator. -/
theorem c2_cubic_refines_general (p0 p1 p2 p3 : Point) (t : ℚ) :
    de_casteljau_general [p0, p1, p2, p3] t =
      some (de_casteljau_cubic p0 p1 p2 p3 t) := rfl

/-- Claim C3: for the control points `[(1,1), (2,3), (4,3), (5,1)]` the
evaluator at `t = 1/2` returns exactly `(3, 5/2)`. -/
theorem c3_concrete_midpoint :
    de_casteljau_general [⟨1,1⟩, ⟨2,3⟩, ⟨4,3⟩, ⟨5,1⟩] (1/2) =
      some ⟨3, 5/2⟩ := by
  show ((deCasteljauStep (1/2))^[3] [⟨1,1⟩, ⟨2,3⟩, ⟨4,3⟩, ⟨5,1⟩]).head? =
    some ⟨3, 5/2⟩
  rw [Function.iterate_succ_apply, Function.iterate_succ_apply,
    Function.iterate_succ_apply, Function.iterate_zero_apply]
  simp only [deCasteljauStep, lerp, List.head?]
  norm_num

/-- Claim C4: for every control polygon with at least 2 points and every
`num_points ≥ 2`, `generate_bezier_curve` returns exactly `num_points`
points, the i-th being the general evaluator at `t = i / (num_points - 1)`,
in increasing order of `i`. -/
theorem c4_sampler_grid (cps : List Point) (h : 2 ≤ cps.length)
    (n : ℕ) (hn : 2 ≤ n) :
    ∃ out, generate_bezier_curve cps n = some out ∧ out.length = n ∧
      ∀ i, i < n →
        out[i]? = de_casteljau_general cps ((i : ℚ) / ((n : ℚ) - 1)) := by
  have hsome := fun i : ℕ =>
    de_casteljau_general_isSome cps ((i : ℚ) / ((n : ℚ) - 1)) (by omega)
  choose g hg using hsome
  refine ⟨(List.range n).map g, ?_, by simp, ?_⟩
  · rw [generate_bezier_curve, if_neg (by omega)]
    exact sampleLoop_eq_map _ g _ fun i _ => hg i
  · intro i hi
    rw [List.getElem?_map, List.getElem?_range hi, hg i]
    rfl

/-- Witness for C4 at the two-point polygon `[(0,0), (1,2)]` with
`num_points = 2`. -/
theorem c4_sampler_grid_witness :
    ∃ out, generate_bezier_curve [⟨0,0⟩, ⟨1,2⟩] 2 = some out ∧
      out.length = 2 ∧
      ∀ i : ℕ, i < 2 →
        out[i]? = de_casteljau_general [⟨0,0⟩, ⟨1,2⟩]
          ((i : ℚ) / (((2 : ℕ) : ℚ) - 1)) :=
  c4_sampler_grid [⟨0,0⟩, ⟨1,2⟩] (by simp) 2 (by omega)

/-- Counterexample to claim C8 as stated: on the single control point
`(0,0)` the evaluator does not fail — it returns that point. -/
theorem c8_counterexample :
    de_casteljau_general [⟨0,0⟩] (1/2) = some ⟨0,0⟩ := rfl

/-- Claim C8 amended: the evaluator performs no validation.  On the empty
input it fails (an uncaught index error, not a dedicated
`InvalidInputError`); on a single control point it succeeds and returns
that point unchanged. -/
theorem c8_amended_no_validation (p : Point) (t : ℚ) :
    de_casteljau_general [] t = none ∧
    de_casteljau_general [p] t = some p := ⟨rfl, rfl⟩

/-- Claim C10: with at most 2 control points, `decrease_degree` refuses
the operation (modelled as `none`) and the handler leaves the global
control-point list completely unchanged. -/
theorem c10_decrease_at_floor (cps : List Point) (h : cps.length ≤ 2) :
    decrease_degree cps = none ∧ decrease_degree_handler cps = cps := by
  refine ⟨?_, ?_⟩ <;>
    simp [decrease_degree, decrease_degree_handler, if_pos h]

/-- Witness for C10 at the one-point polygon `[(0,0)]`. -/
theorem c10_decrease_at_floor_witness :
    decrease_degree [⟨0,0⟩] = none ∧
    decrease_degree_handler [⟨0,0⟩] = [⟨0,0⟩] :=
  c10_decrease_at_floor [⟨0,0⟩] (by simp)

theorem length_flatMap_range (f : ℕ → List Point) (n m : ℕ)
    (hf : ∀ k, (f k).length = n) :
    ((List.range m).flatMap f).length = m * n := by
  induction m with
  | zero => simp
  | succ m ih =>
    rw [List.range_succ, List.flatMap_append, List.length_append, ih]
    simp only [List.flatMap_cons, List.flatMap_nil, List.append_nil, hf]
    ring

/-- Counterexample to claim C9 as stated: a 5-point input (4 % 3 ≠ 0)
does not fail — the sampler silently processes the single complete
segment and ignores the fifth point entirely. -/
theorem c9_counterexample :
    generate_piecewise_bezier [⟨0,0⟩, ⟨1,1⟩, ⟨2,1⟩, ⟨3,0⟩, ⟨99,99⟩] 2 =
      some [⟨0,0⟩, ⟨3,0⟩] := by
  rw [generate_piecewise_bezier]
  norm_num [num_segments, de_casteljau_cubic, lerp, List.range_succ,
    List.getD]

/-- Claim C9 amended: `generate_piecewise_bezier` performs no length
validation.  For every input list and every `num_points ≥ 2` it succeeds,
sampling exactly `(length - 1) / 3` complete segments (trailing points
beyond the last complete segment are ignored). -/
theorem c9_amended_silent_truncation (cps : List Point) (n : ℕ)
    (hn : 2 ≤ n) :
    ∃ out, generate_piecewise_bezier cps n = some out ∧
      out.length = num_segments cps * n := by
  rw [generate_piecewise_bezier, if_neg (by rintro ⟨h1, _⟩; omega)]
  refine ⟨_, rfl, ?_⟩
  apply length_flatMap_range
  intro k
  rw [List.length_map, List.length_range]

/-- Witness for the amended C9 at the same 5-point input. -/
theorem c9_amended_silent_truncation_witness :
    ∃ out,
      generate_piecewise_bezier [⟨0,0⟩, ⟨1,1⟩, ⟨2,1⟩, ⟨3,0⟩, ⟨99,99⟩] 2 =
        some out ∧
      out.length = num_segments [⟨0,0⟩, ⟨1,1⟩, ⟨2,1⟩, ⟨3,0⟩, ⟨99,99⟩] * 2 :=
  c9_amended_silent_truncation [⟨0,0⟩, ⟨1,1⟩, ⟨2,1⟩, ⟨3,0⟩, ⟨99,99⟩] 2
    (by omega)

theorem exists_append_two (l : List Point) (h : 2 ≤ l.length) :
    ∃ ys s la, l = ys ++ [s, la] := by
  induction l with
  | nil => simp at h
  | cons a l ih =>
    cases l with
    | nil => simp at h
    | cons b rest =>
      cases rest with
      | nil => exact ⟨[], a, b, rfl⟩
      | cons c rest2 =>
        obtain ⟨ys, s, la, heq⟩ := ih (by simp)
        exact ⟨a :: ys, s, la, by rw [List.cons_append, heq]⟩

theorem getD_append_two_snd (ys : List Point) (s la d : Point) :
    (ys ++ [s, la]).getD (ys.length + 1) d = la := by
  induction ys with
  | nil => rfl
  | cons a t ih => exact ih

theorem getD_append_two_fst (ys : List Point) (s la d : Point) :
    (ys ++ [s, la]).getD ys.length d = s := by
  induction ys with
  | nil => rfl
  | cons a t ih => exact ih

theorem eraseIdx_append_cons (l1 : List Point) (p : Point) (l2 : List Point) :
    (l1 ++ p :: l2).eraseIdx l1.length = l1 ++ l2 := by
  induction l1 with
  | nil => rfl
  | cons a t ih => simp [List.eraseIdx, ih]

/-- Claim C6: on a control polygon of at least 3 points, `increase_degree`
followed by `decrease_degree` restores the original first point, last
point and length.  (In fact the whole list round-trips: the inserted
second-to-last point is exactly the point the reduction removes.) -/
theorem c6_degree_roundtrip (cps : List Point) (h : 3 ≤ cps.length) :
    ∃ mid out : List Point, increase_degree cps = some mid ∧
      decrease_degree mid = some out ∧
      out.head? = cps.head? ∧ out.getLast? = cps.getLast? ∧
      out.length = cps.length := by
  obtain ⟨ys, s, la, rfl⟩ := exists_append_two cps (by omega)
  have hlen : (ys ++ [s, la]).length = ys.length + 2 := by simp
  have hinc : increase_degree (ys ++ [s, la]) =
      some ((ys ++ [s]) ++
        [⟨(s.x + la.x) / 2, (s.y + la.y) / 2 + 1/2⟩, la]) := by
    rw [increase_degree, if_neg (by omega)]
    have h1 : (ys ++ [s, la]).getD ((ys ++ [s, la]).length - 1) default =
        la := by
      rw [hlen, show ys.length + 2 - 1 = ys.length + 1 from by omega]
      exact getD_append_two_snd ys s la default
    have h2 : (ys ++ [s, la]).getD ((ys ++ [s, la]).length - 2) default =
        s := by
      rw [hlen, show ys.length + 2 - 2 = ys.length from by omega]
      exact getD_append_two_fst ys s la default
    have h3 : (ys ++ [s, la]).dropLast = ys ++ [s] := by
      rw [show ys ++ [s, la] = (ys ++ [s]) ++ [la] from by simp,
        List.dropLast_concat]
    rw [h1, h2, h3]
  have hdec : decrease_degree ((ys ++ [s]) ++
      [⟨(s.x + la.x) / 2, (s.y + la.y) / 2 + 1/2⟩, la]) =
      some (ys ++ [s, la]) := by
    rw [decrease_degree, if_neg (by simp)]
    have h4 : ((ys ++ [s]) ++
        [(⟨(s.x + la.x) / 2, (s.y + la.y) / 2 + 1/2⟩ : Point),
          la]).length - 2 = (ys ++ [s]).length := by simp
    rw [h4, show ((ys ++ [s]) ++
        [(⟨(s.x + la.x) / 2, (s.y + la.y) / 2 + 1/2⟩ : Point), la]) =
        (ys ++ [s]) ++
        (⟨(s.x + la.x) / 2, (s.y + la.y) / 2 + 1/2⟩ : Point) :: [la]
      from rfl, eraseIdx_append_cons]
    simp
  exact ⟨_, _, hinc, hdec, rfl, rfl, rfl⟩

/-- Witness for C6 at the quadratic polygon `[(0,0), (1,1), (2,0)]`. -/
theorem c6_degree_roundtrip_witness :
    ∃ mid out : List Point,
      increase_degree [⟨0,0⟩, ⟨1,1⟩, ⟨2,0⟩] = some mid ∧
      decrease_degree mid = some out ∧
      out.head? = List.head? [⟨0,0⟩, ⟨1,1⟩, ⟨2,0⟩] ∧
      out.getLast? = List.getLast? [⟨0,0⟩, ⟨1,1⟩, ⟨2,0⟩] ∧
      out.length = List.length ([⟨0,0⟩, ⟨1,1⟩, ⟨2,0⟩] : List Point) :=
  c6_degree_roundtrip [⟨0,0⟩, ⟨1,1⟩, ⟨2,0⟩] (by simp)

/-- Claim C7: on a nonempty piecewise polygon with `(length - 1) % 3 = 0`
and last point `L`, `add_segment` appends exactly `L+(1, 1/2)`,
`L+(2, 1/2)`, `L+(3, 0)` in that order, grows the length by 3 and the
segment count by 1, keeps every pre-existing point, starts the new
segment at the old last point, and preserves the `(length - 1) % 3 = 0`
invariant. -/
theorem c7_add_segment_appends (cps : List Point) (L : Point)
    (hL : cps.getLast? = some L) (hmod : (cps.length - 1) % 3 = 0) :
    ∃ out : List Point, add_segment cps = some out ∧
      out = cps ++
        [⟨L.x + 1, L.y + 1/2⟩, ⟨L.x + 2, L.y + 1/2⟩, ⟨L.x + 3, L.y⟩] ∧
      out.length = cps.length + 3 ∧
      num_segments out = num_segments cps + 1 ∧
      (out.length - 1) % 3 = 0 ∧
      (∀ i, i < cps.length → out[i]? = cps[i]?) ∧
      out[cps.length - 1]? = some L := by
  have hne : cps ≠ [] := by rintro rfl; simp at hL
  have hpos : 1 ≤ cps.length := List.length_pos.mpr hne
  have hadd : add_segment cps = some (cps ++
      [⟨L.x + 1, L.y + 1/2⟩, ⟨L.x + 2, L.y + 1/2⟩, ⟨L.x + 3, L.y⟩]) := by
    unfold add_segment
    rw [hL]
  have hlen3 : (cps ++
      [(⟨L.x + 1, L.y + 1/2⟩ : Point), ⟨L.x + 2, L.y + 1/2⟩,
        ⟨L.x + 3, L.y⟩]).length = cps.length + 3 := by simp
  refine ⟨_, hadd, rfl, ?_, ?_, ?_, ?_, ?_⟩
  · exact hlen3
  · simp only [num_segments, hlen3]
    omega
  · rw [hlen3]
    omega
  · intro i hi
    rw [List.getElem?_append, if_pos hi]
  · rw [List.getElem?_append, if_pos (by omega),
      ← List.getLast?_eq_getElem?, hL]

/-- Witness for C7 at the single cubic segment
`[(0,0), (1,1), (2,1), (3,0)]`. -/
theorem c7_add_segment_appends_witness :
    ∃ out : List Point,
      add_segment [⟨0,0⟩, ⟨1,1⟩, ⟨2,1⟩, ⟨3,0⟩] = some out ∧
      out = [⟨0,0⟩, ⟨1,1⟩, ⟨2,1⟩, ⟨3,0⟩] ++
        [⟨(3:ℚ) + 1, (0:ℚ) + 1/2⟩, ⟨(3:ℚ) + 2, (0:ℚ) + 1/2⟩,
          ⟨(3:ℚ) + 3, (0:ℚ)⟩] ∧
      out.length = List.length ([⟨0,0⟩, ⟨1,1⟩, ⟨2,1⟩, ⟨3,0⟩] : List Point) + 3 ∧
      num_segments out = num_segments [⟨0,0⟩, ⟨1,1⟩, ⟨2,1⟩, ⟨3,0⟩] + 1 ∧
      (out.length - 1) % 3 = 0 ∧
      (∀ i, i < List.length ([⟨0,0⟩, ⟨1,1⟩, ⟨2,1⟩, ⟨3,0⟩] : List Point) →
        out[i]? = ([⟨0,0⟩, ⟨1,1⟩, ⟨2,1⟩, ⟨3,0⟩] : List Point)[i]?) ∧
      out[List.length ([⟨0,0⟩, ⟨1,1⟩, ⟨2,1⟩, ⟨3,0⟩] : List Point) - 1]? =
        some ⟨3,0⟩ :=
  c7_add_segment_appends [⟨0,0⟩, ⟨1,1⟩, ⟨2,1⟩, ⟨3,0⟩] ⟨3,0⟩ (by rfl) (by simp)

theorem de_casteljau_cubic_zero (p0 p1 p2 p3 : Point) :
    de_casteljau_cubic p0 p1 p2 p3 0 = p0 := by
  simp [de_casteljau_cubic, lerp_zero]

theorem de_casteljau_cubic_one (p0 p1 p2 p3 : Point) :
    de_casteljau_cubic p0 p1 p2 p3 1 = p3 := by
  simp [de_casteljau_cubic, lerp_one]

theorem getD_eq_getElem?_of_lt (l : List Point) (i : ℕ) (d : Point)
    (h : i < l.length) : some (l.getD i d) = l[i]? := by
  rw [List.getD_eq_getElem?_getD, List.getElem?_eq_getElem h]
  rfl

theorem flatMap_range_getElem (f : ℕ → List Point) (n : ℕ)
    (hf : ∀ k, (f k).length = n) (m k i : ℕ) (hk : k < m) (hi : i < n) :
    ((List.range m).flatMap f)[k * n + i]? = (f k)[i]? := by
  induction m with
  | zero => omega
  | succ m ih =>
    rw [List.range_succ, List.flatMap_append]
    have hlen1 : ((List.range m).flatMap f).length = m * n :=
      length_flatMap_range f n m hf
    by_cases hkm : k < m
    · have hb : k * n + i < m * n := by
        have h1 : k * n + i < k * n + n := Nat.add_lt_add_left hi _
        have h2 : k * n + n = (k + 1) * n := by ring
        have h3 : (k + 1) * n ≤ m * n := Nat.mul_le_mul_right n hkm
        omega
      rw [List.getElem?_append, if_pos (by rw [hlen1]; exact hb)]
      exact ih hkm
    · have hkm2 : k = m := by omega
      subst hkm2
      rw [List.getElem?_append,
        if_neg (by rw [hlen1]; exact Nat.not_lt.mpr (Nat.le_add_right _ _)),
        hlen1, Nat.add_sub_cancel_left]
      simp only [List.flatMap_cons, List.flatMap_nil, List.append_nil]

/-- Claim C5: on a piecewise polygon of `3m + 1` control points
(`m ≥ 1` segments) and `num_points ≥ 2` per segment,
`generate_piecewise_bezier` returns exactly `m * num_points` points, the
in-order concatenation of the per-segment samples of `points[3k .. 3k+3]`,
and at every internal shared index `3k` (`1 ≤ k < m`) the last point of
block `k-1` and the first point of block `k` both equal the shared
control point `points[3k]`. -/
theorem c5_piecewise_concatenation (m : ℕ) (hm : 1 ≤ m) (cps : List Point)
    (hlen : cps.length = 3 * m + 1) (n : ℕ) (hn : 2 ≤ n) :
    ∃ out : List Point, generate_piecewise_bezier cps n = some out ∧
      out.length = m * n ∧
      (∀ k i : ℕ, k < m → i < n →
        out[k * n + i]? = some (de_casteljau_cubic
          (cps.getD (3 * k) default) (cps.getD (3 * k + 1) default)
          (cps.getD (3 * k + 2) default) (cps.getD (3 * k + 3) default)
          ((i : ℚ) / ((n : ℚ) - 1)))) ∧
      (∀ k : ℕ, 1 ≤ k → k < m →
        out[k * n - 1]? = cps[3 * k]? ∧ out[k * n]? = cps[3 * k]?) := by
  have hns : num_segments cps = m := by
    simp only [num_segments, hlen]
    omega
  have hF : ∀ k : ℕ, ((List.range n).map fun i : ℕ =>
      de_casteljau_cubic
        (cps.getD (3 * k) default) (cps.getD (3 * k + 1) default)
        (cps.getD (3 * k + 2) default) (cps.getD (3 * k + 3) default)
        ((i : ℚ) / ((n : ℚ) - 1))).length = n := fun k => by
    rw [List.length_map, List.length_range]
  have hblock : ∀ k i : ℕ, k < m → i < n →
      ((List.range m).flatMap fun k => (List.range n).map fun i : ℕ =>
        de_casteljau_cubic
          (cps.getD (3 * k) default) (cps.getD (3 * k + 1) default)
          (cps.getD (3 * k + 2) default) (cps.getD (3 * k + 3) default)
          ((i : ℚ) / ((n : ℚ) - 1)))[k * n + i]? =
      some (de_casteljau_cubic
        (cps.getD (3 * k) default) (cps.getD (3 * k + 1) default)
        (cps.getD (3 * k + 2) default) (cps.getD (3 * k + 3) default)
        ((i : ℚ) / ((n : ℚ) - 1))) := by
    intro k i hk hi
    rw [flatMap_range_getElem _ n hF m k i hk hi, List.getElem?_map,
      List.getElem?_range hi]
    rfl
  rw [generate_piecewise_bezier, if_neg (by rintro ⟨h1, _⟩; omega), hns]
  refine ⟨_, rfl, ?_, hblock, ?_⟩
  · apply length_flatMap_range
    exact hF
  · intro k h1 hk
    have hne1 : ((n : ℚ) - 1) ≠ 0 :=
      sub_ne_zero.mpr (by exact_mod_cast (by omega : n ≠ 1))
    constructor
    · obtain ⟨j, rfl⟩ : ∃ j, k = j + 1 := ⟨k - 1, by omega⟩
      have hidx : (j + 1) * n - 1 = j * n + (n - 1) := by
        rw [show (j + 1) * n = j * n + n from by ring,
          Nat.add_sub_assoc (by omega : 1 ≤ n)]
      rw [hidx, hblock j (n - 1) (by omega) (by omega)]
      have ht : (((n - 1 : ℕ) : ℚ)) / ((n : ℚ) - 1) = 1 := by
        rw [Nat.cast_sub (by omega : 1 ≤ n), Nat.cast_one]
        exact div_self hne1
      rw [ht, de_casteljau_cubic_one]
      exact getD_eq_getElem?_of_lt cps _ default (by omega)
    · have hb := hblock k 0 hk (by omega)
      rw [Nat.add_zero] at hb
      rw [hb, Nat.cast_zero, zero_div, de_casteljau_cubic_zero]
      exact getD_eq_getElem?_of_lt cps _ default (by omega)

/-- Witness for C5 at a two-segment chain of 7 points with 2 samples per
segment. -/
theorem c5_piecewise_concatenation_witness :
    ∃ out : List Point,
      generate_piecewise_bezier
        [⟨0,0⟩, ⟨1,1⟩, ⟨2,1⟩, ⟨3,0⟩, ⟨4,2⟩, ⟨5,2⟩, ⟨6,0⟩] 2 = some out ∧
      out.length = 2 * 2 ∧
      (∀ k i : ℕ, k < 2 → i < 2 →
        out[k * 2 + i]? = some (de_casteljau_cubic
          (List.getD [⟨0,0⟩, ⟨1,1⟩, ⟨2,1⟩, ⟨3,0⟩, ⟨4,2⟩, ⟨5,2⟩, ⟨6,0⟩]
            (3 * k) default)
          (List.getD [⟨0,0⟩, ⟨1,1⟩, ⟨2,1⟩, ⟨3,0⟩, ⟨4,2⟩, ⟨5,2⟩, ⟨6,0⟩]
            (3 * k + 1) default)
          (List.getD [⟨0,0⟩, ⟨1,1⟩, ⟨2,1⟩, ⟨3,0⟩, ⟨4,2⟩, ⟨5,2⟩, ⟨6,0⟩]
            (3 * k + 2) default)
          (List.getD [⟨0,0⟩, ⟨1,1⟩, ⟨2,1⟩, ⟨3,0⟩, ⟨4,2⟩, ⟨5,2⟩, ⟨6,0⟩]
            (3 * k + 3) default)
          ((i : ℚ) / (((2 : ℕ) : ℚ) - 1)))) ∧
      (∀ k : ℕ, 1 ≤ k → k < 2 →
        out[k * 2 - 1]? =
          ([⟨0,0⟩, ⟨1,1⟩, ⟨2,1⟩, ⟨3,0⟩, ⟨4,2⟩, ⟨5,2⟩, ⟨6,0⟩] :
            List Point)[3 * k]? ∧
        out[k * 2]? =
          ([⟨0,0⟩, ⟨1,1⟩, ⟨2,1⟩, ⟨3,0⟩, ⟨4,2⟩, ⟨5,2⟩, ⟨6,0⟩] :
            List Point)[3 * k]?) :=
  c5_piecewise_concatenation 2 (by omega)
    [⟨0,0⟩, ⟨1,1⟩, ⟨2,1⟩, ⟨3,0⟩, ⟨4,2⟩, ⟨5,2⟩, ⟨6,0⟩] (by simp) 2 (by omega)
